import Mathlib

/-!
# Verification of the agent-workflow orchestrator specification

The repository's source is a notebook (`agent_workflow_research_assistant.ipynb`)
that wires pre-built tool integrations into an `AgentWorkflow` run.  The
orchestration core described by the specification (`ToolRegistry`, `ToolInvoker`,
`ConversationState`, `StepPlanner`, `WorkflowLoop`, `EventStream`) lives in the
`llama_index` library, outside the files given here; it is therefore modelled
from the specification's words.  The notebook's own code (tool-list filtering
and the event-consuming loop) is embedded directly from the source.
-/

namespace AgentWorkflow

/-- Modelled from the spec: a Tool record of the ToolRegistry (§3): name unique
within a registry, plus descriptive metadata.  The handler is external and is
modelled by the `ToolEnv` environment below. -/
structure Tool where
  name : String
  description : String
deriving DecidableEq, Repr

/-- Modelled from the spec: ToolRegistry (§4.1), holding the set of invocable
tools; immutable after the run starts. -/
structure ToolRegistry where
  tools : List Tool
deriving DecidableEq, Repr

/-- Modelled from the spec: `lookup(name)` returns the Tool or fails with
`UnknownToolError` (§4.1); failure is the `none` case. -/
def ToolRegistry.lookup (reg : ToolRegistry) (name : String) : Option Tool :=
  reg.tools.find? (fun t => t.name == name)

/-- Modelled from the spec: ToolCallRequest (§3): id, tool name, argument
values.  Arguments are abstracted to an opaque blob; schema validation is part
of the external tool contract. -/
structure ToolCallRequest where
  id : String
  toolName : String
  args : String
deriving DecidableEq, Repr

/-- Modelled from the spec: the status field of a ToolCallResult (§3). -/
inductive ResultStatus where
  | ok
  | error
deriving DecidableEq, Repr

/-- Modelled from the spec: the payload of a ToolCallResult: an arbitrary
structured value on success, or an error description (§3, §7): unknown tool,
timeout, or a handler-level execution error. -/
inductive Payload where
  | value (v : String)
  | unknownToolError (name : String)
  | timeoutError
  | execError (msg : String)
deriving DecidableEq, Repr

/-- Modelled from the spec: ToolCallResult (§3): request id, status, payload;
immutable once produced, one-to-one with a ToolCallRequest. -/
structure ToolCallResult where
  requestId : String
  status : ResultStatus
  payload : Payload
deriving DecidableEq, Repr

/-- Modelled from the spec: the behaviour of an external tool handler on one
call (§6): it may return a result, raise a tool-specific error, or exceed the
per-call timeout. -/
inductive ToolOutcome where
  | ok (v : String)
  | err (msg : String)
  | timeout
deriving DecidableEq, Repr

/-- Modelled from the spec: the external tool handlers, as an environment
mapping each request to its handler's outcome (§6). -/
def ToolEnv : Type := ToolCallRequest → ToolOutcome

/-- Modelled from the spec: ToolInvoker.invoke (§4.2, §4.3): an unknown tool
name is downgraded to an immediate error-status result with an
`UnknownToolError` payload; a handler timeout produces an error-status result
with a `TimeoutError` payload rather than propagating an exception; a
handler-level failure is likewise captured as data. -/
def invoke (reg : ToolRegistry) (env : ToolEnv) (req : ToolCallRequest) : ToolCallResult :=
  match reg.lookup req.toolName with
  | none => ⟨req.id, .error, .unknownToolError req.toolName⟩
  | some _ =>
    match env req with
    | .ok v => ⟨req.id, .ok, .value v⟩
    | .err m => ⟨req.id, .error, .execError m⟩
    | .timeout => ⟨req.id, .error, .timeoutError⟩

/-- Modelled from the spec: Message (§3), the tagged variant forming
ConversationState: user, assistant-text, assistant-tool-call, tool-result. -/
inductive Message where
  | user (text : String)
  | assistantText (text : String)
  | assistantToolCall (reqs : List ToolCallRequest)
  | toolResult (res : ToolCallResult)
deriving DecidableEq, Repr

/-- Modelled from the spec: the planner's Action (§4.3): either a final answer
or an ordered sequence of tool-call requests. -/
inductive Action where
  | finalAnswer (text : String)
  | toolCalls (reqs : List ToolCallRequest)
deriving DecidableEq, Repr

/-- Modelled from the spec: Event (§3, §4.5): text-delta, tool-call-started,
tool-call-finished, run-completed, run-failed. -/
inductive Event where
  | textDelta (text : String)
  | toolCallStarted (requestId : String)
  | toolCallFinished (requestId : String)
  | runCompleted
  | runFailed
deriving DecidableEq, Repr

/-- Modelled from the spec: one item of the run's unified timeline: either an
Event emitted on the EventStream or a Message appended to ConversationState.
The spec's consistency requirement between events and appended messages (§3,
§8) is stated over this single ordered trace. -/
inductive TraceItem where
  | ev (e : Event)
  | msg (m : Message)
deriving DecidableEq, Repr

/-- Modelled from the spec: the WorkflowRun termination status (§3):
running, completed, failed, cancelled, step-limit-exceeded. -/
inductive Status where
  | running
  | completed
  | failed
  | cancelled
  | stepLimitExceeded
deriving DecidableEq, Repr

/-- Modelled from the spec: the fatal run errors of §4.4: a planner stall
(empty ToolCalls for more than one consecutive step) or a planner/backend
failure. -/
inductive RunError where
  | plannerStalled
  | plannerFailure
deriving DecidableEq, Repr

/-- Modelled from the spec: the per-run mutable state owned by the
WorkflowLoop (§3, §4.4): the timeline (events and appended messages), the step
counter, the consecutive-empty-ToolCalls streak, counters of planner
invocations and tool-handler invocations, the termination status and the last
fatal error. -/
structure RunState where
  trace : List TraceItem
  stepsDone : Nat
  emptyStreak : Nat
  plannerCalls : Nat
  handlerCalls : Nat
  status : Status
  lastError : Option RunError
deriving DecidableEq, Repr

/-- The messages of a timeline, in order: the ConversationState (§3). -/
def messagesOf (tr : List TraceItem) : List Message :=
  tr.filterMap (fun it =>
    match it with
    | .msg m => some m
    | .ev _ => none)

/-- The ConversationState of a run state. -/
def RunState.conv (st : RunState) : List Message :=
  messagesOf st.trace

/-- Modelled from the spec: run configuration (§6): the step limit.  The
per-tool timeout and stream buffer size are absorbed by `ToolEnv` and the
ordered trace respectively. -/
structure Config where
  step_limit : Nat
deriving DecidableEq, Repr

/-- Modelled from the spec: the order in which the concurrently running tool
calls of one step happen to complete (§4.2, §5): a list of indices into the
step's request list.  A real execution completes each call exactly once, which
is the `validSchedule` condition below. -/
def Schedule : Type := List ToolCallRequest → List Nat

/-- A schedule is valid when each step's completion order is a permutation of
the step's request indices: every in-flight call completes exactly once. -/
def validSchedule (sched : Schedule) : Prop :=
  ∀ reqs : List ToolCallRequest, (sched reqs).Perm (List.range reqs.length)

/-- The raw results as they arrive: pairs (request index, result) in
completion order. -/
def collectInOrder (results : List ToolCallResult) (order : List Nat) :
    List (Nat × ToolCallResult) :=
  order.filterMap (fun i => results[i]?.map (fun r => (i, r)))

/-- Modelled from the spec: results are reinserted in the order the requests
were issued (§4.2): slot `i` of the output is the collected result whose
request index is `i`. -/
def reorderByIssue (n : Nat) (collected : List (Nat × ToolCallResult)) :
    List ToolCallResult :=
  (List.range n).filterMap (fun i =>
    (collected.find? (fun p => p.1 == i)).map Prod.snd)

/-- Modelled from the spec: one ExecutingTools phase (§4.2, §5): all requests
of the step are invoked concurrently, their results arrive in the schedule's
completion order, and are reinserted in request-issue order. -/
def executeStep (reg : ToolRegistry) (env : ToolEnv) (sched : Schedule)
    (reqs : List ToolCallRequest) : List ToolCallResult :=
  let raw := reqs.map (invoke reg env)
  reorderByIssue reqs.length (collectInOrder raw (sched reqs))

/-- Number of requests of a step that reach their underlying handler: unknown
tool names fail fast without calling any handler (§4.2, §4.3). -/
def handlersInvoked (reg : ToolRegistry) (reqs : List ToolCallRequest) : Nat :=
  (reqs.filter (fun r => (reg.lookup r.toolName).isSome)).length

/-- The `tool-call-started` events of a step, one per request, emitted at
dispatch in request-issue order (§4.5). -/
def startedEvents (reqs : List ToolCallRequest) : List TraceItem :=
  reqs.map (fun r => .ev (.toolCallStarted r.id))

/-- The appended tool-result Messages of a step, each immediately followed by
its `tool-call-finished` event (§4.5), in request-issue order (§4.2). -/
def resultItems (results : List ToolCallResult) : List TraceItem :=
  (results.map (fun r => [TraceItem.msg (.toolResult r),
                          TraceItem.ev (.toolCallFinished r.requestId)])).flatten

/-- The request ids dispatched during a run: one per `tool-call-started`
Event of the timeline (§4.5). -/
def issuedIds (tr : List TraceItem) : List String :=
  tr.filterMap (fun it =>
    match it with
    | .ev (.toolCallStarted i) => some i
    | _ => none)

/-- The request ids answered during a run: one per tool-result Message
appended to ConversationState (§3). -/
def resultIds (tr : List TraceItem) : List String :=
  tr.filterMap (fun it =>
    match it with
    | .msg (.toolResult r) => some r.requestId
    | _ => none)

/-- The request ids an Action issues. -/
def actionIds : Action → List String
  | .finalAnswer _ => []
  | .toolCalls reqs => reqs.map (fun r => r.id)

/-- All request ids of a fixed planner script; the spec's data model makes
request ids unique (§3), which is `Nodup` of this list. -/
def allRequestIds (plans : List Action) : List String :=
  (plans.map actionIds).flatten

/-- The bracketing invariant of §8 over a run timeline: every dispatched
request id has exactly one tool-result Message, placed no earlier than its
tool-call-started Event and no later than its tool-call-finished Event. -/
def ResultBracketed (tr : List TraceItem) : Prop :=
  ∀ rid ∈ issuedIds tr,
    (resultIds tr).count rid = 1 ∧
    ∃ i j k : Nat, i ≤ j ∧ j ≤ k ∧
      tr[i]? = some (.ev (.toolCallStarted rid)) ∧
      (∃ r : ToolCallResult,
        tr[j]? = some (.msg (.toolResult r)) ∧ r.requestId = rid) ∧
      tr[k]? = some (.ev (.toolCallFinished rid))

/-- Terminal transition to Completed: append the assistant-text Message, emit
run-completed (§4.4). -/
def finishCompleted (st : RunState) (text : String) : RunState :=
  { st with
    trace := st.trace ++ [.msg (.assistantText text), .ev .runCompleted],
    status := .completed }

/-- Terminal transition to Failed: emit run-failed, record the fatal error
(§4.4, §7). -/
def finishFailed (st : RunState) (e : RunError) : RunState :=
  { st with
    trace := st.trace ++ [.ev .runFailed],
    status := .failed,
    lastError := some e }

/-- Terminal transition to Cancelled (§4.4): the status, not the terminal
event kind, records that the run was cancelled rather than failed (§7). -/
def finishCancelled (st : RunState) : RunState :=
  { st with
    trace := st.trace ++ [.ev .runFailed],
    status := .cancelled }

/-- Terminal transition to StepLimitExceeded (§4.4): a deliberate stop
condition, surfaced distinctly from Failed through the status field. -/
def finishStepLimit (st : RunState) : RunState :=
  { st with
    trace := st.trace ++ [.ev .runFailed],
    status := .stepLimitExceeded }

/-- The state after a Planning transition whose action was an empty
`toolCalls` that did not stall the run: the planner was consulted and the
consecutive-empty streak grows (§4.4). -/
def afterEmptyStep (st : RunState) : RunState :=
  { st with
    plannerCalls := st.plannerCalls + 1,
    emptyStreak := st.emptyStreak + 1 }

/-- The state after one full Planning → ExecutingTools cycle on requests
`reqs` yielding `results`: the assistant-tool-call Message, the started
events, and the tool-result Messages with their finished events are appended;
the step counter advances and the empty streak resets (§4.4, §4.5). -/
def afterToolStep (reg : ToolRegistry) (st : RunState)
    (reqs : List ToolCallRequest) (results : List ToolCallResult) : RunState :=
  { st with
    trace := st.trace ++ [.msg (.assistantToolCall reqs)] ++
      startedEvents reqs ++ resultItems results,
    stepsDone := st.stepsDone + 1,
    emptyStreak := 0,
    plannerCalls := st.plannerCalls + 1,
    handlerCalls := st.handlerCalls + handlersInvoked reg reqs }

/-- Modelled from the spec: the WorkflowLoop state machine (§4.4), absent from
the source files.  `plans` is the fixed sequence of planner outputs (the
StepPlanner adapter is driven by the external backend, §4.3); an exhausted
sequence is a planner/backend failure and is fatal.  `cancel` is the external
cancellation signal sampled at the start of each phase; phase `2*iter` is the
iteration's Planning transition and `2*iter + 1` its ExecutingTools
transition.  The step counter is checked at the start of Planning, so a run
with `step_limit = 0` terminates before invoking the planner or any tool. -/
def runLoop (cfg : Config) (reg : ToolRegistry) (env : ToolEnv)
    (cancel : Nat → Bool) (sched : Schedule) :
    List Action → Nat → RunState → RunState
  | [], iter, st =>
    if cancel (2 * iter) then finishCancelled st
    else if cfg.step_limit ≤ st.stepsDone then finishStepLimit st
    else finishFailed { st with plannerCalls := st.plannerCalls + 1 }
      .plannerFailure
  | act :: rest, iter, st =>
    if cancel (2 * iter) then finishCancelled st
    else if cfg.step_limit ≤ st.stepsDone then finishStepLimit st
    else
      match act with
      | .finalAnswer text =>
        finishCompleted
          { st with
            trace := st.trace ++ [.ev (.textDelta text)],
            plannerCalls := st.plannerCalls + 1 } text
      | .toolCalls [] =>
        if 1 ≤ st.emptyStreak then
          finishFailed { st with plannerCalls := st.plannerCalls + 1 }
            .plannerStalled
        else
          runLoop cfg reg env cancel sched rest (iter + 1) (afterEmptyStep st)
      | .toolCalls (q :: qs) =>
        if cancel (2 * iter + 1) then
          finishCancelled
            { st with
              trace := st.trace ++ [.msg (.assistantToolCall (q :: qs))],
              plannerCalls := st.plannerCalls + 1 }
        else
          runLoop cfg reg env cancel sched rest (iter + 1)
            (afterToolStep reg st (q :: qs)
              (executeStep reg env sched (q :: qs)))

/-- Modelled from the spec: the initial run state (§4.4 Idle): the
conversation seeded with the goal as the first user Message. -/
def initState (goal : String) : RunState :=
  { trace := [.msg (.user goal)],
    stepsDone := 0,
    emptyStreak := 0,
    plannerCalls := 0,
    handlerCalls := 0,
    status := .running,
    lastError := none }

/-- Modelled from the spec: one end-to-end run of the orchestrator (§6
`start`): seed the conversation with the goal and drive the WorkflowLoop over
the fixed sequence of planner outputs. -/
def run (cfg : Config) (reg : ToolRegistry) (env : ToolEnv)
    (cancel : Nat → Bool) (sched : Schedule) (plans : List Action)
    (goal : String) : RunState :=
  runLoop cfg reg env cancel sched plans 0 (initState goal)

/-! ## Concrete fixtures used by the witnesses -/

/-- A one-tool registry for concrete runs. -/
def sampleReg : ToolRegistry := ⟨[⟨"search", "web search"⟩]⟩

/-- An environment whose handlers always answer. -/
def sampleEnv : ToolEnv := fun _ => .ok "hit"

/-- The never-signalled cancellation flag. -/
def noCancel : Nat → Bool := fun _ => false

/-- The completion schedule in which calls complete in request-issue order. -/
def schedIssue : Schedule := fun reqs => List.range reqs.length

/-- The completion schedule in which calls complete in reverse issue order. -/
def schedRev : Schedule := fun reqs => (List.range reqs.length).reverse

/-- A two-requests-then-answer planner script. -/
def samplePlans : List Action :=
  [.toolCalls [⟨"r1", "search", "q1"⟩, ⟨"r2", "search", "q2"⟩],
   .finalAnswer "done"]

/-- The always-timing-out tool environment, used as a witness fixture. -/
def timeoutEnv : ToolEnv := fun _ => .timeout

/-- The cancellation signal that is raised from phase 2 on: in a run whose
first action issues tool calls, it arrives while those calls are in flight. -/
def cancelFromPhase2 : Nat → Bool := fun n => decide (2 ≤ n)

end AgentWorkflow

namespace ResearchAssistant

/-! Embedding of the notebook's own code
(`docs/docs/examples/agent/agent_workflow_research_assistant.ipynb`). -/

/-- A tool's metadata, carrying its name (`tool.metadata.name`). -/
structure ToolMetadata where
  name : String
deriving DecidableEq, Repr

/-- A pre-built tool as handed around by the notebook: only its metadata is
inspected there. -/
structure FunctionTool where
  metadata : ToolMetadata
deriving DecidableEq, Repr

/-- The notebook's `playwright_agent_tool_list`: the Playwright tools
restricted to the names "click", "get_current_page", "navigate_to". -/
def playwright_agent_tool_list (playwright_tool_list : List FunctionTool) :
    List FunctionTool :=
  playwright_tool_list.filter (fun tool =>
    decide (tool.metadata.name ∈ ["click", "get_current_page", "navigate_to"]))

/-- The notebook's `duckduckgo_search_tool`: the DuckDuckGo tools restricted
to the name "duckduckgo_full_search". -/
def duckduckgo_search_tool (duckduckgo_tool_list : List FunctionTool) :
    List FunctionTool :=
  duckduckgo_tool_list.filter (fun tool =>
    tool.metadata.name == "duckduckgo_full_search")

/-- The tool list passed to `AgentWorkflow.from_tools_or_functions`:
`playwright_agent_tool_list + agentql_browser_tool.to_tool_list() +
duckduckgo_search_tool`. -/
def workflow_tools (playwright_tool_list agentql_tool_list
    duckduckgo_tool_list : List FunctionTool) : List FunctionTool :=
  playwright_agent_tool_list playwright_tool_list ++ agentql_tool_list ++
    duckduckgo_search_tool duckduckgo_tool_list

/-- The events delivered by `handler.stream_events()` in the notebook: the
`AgentStream` delta events and every other event kind the workflow emits
(tool calls, tool results, agent input/output, the terminal stop event). -/
inductive WorkflowEvent where
  | agentStream (delta : String)
  | agentInput (description : String)
  | agentOutput (description : String)
  | toolCall (name : String)
  | toolCallResult (name : String)
  | stopEvent
deriving DecidableEq, Repr

/-- The notebook's event-consuming loop: `async for event in
handler.stream_events(): if isinstance(event, AgentStream): print(event.delta,
...)`.  Returns the sequence of printed deltas. -/
def stream_loop : List WorkflowEvent → List String
  | [] => []
  | .agentStream d :: rest => d :: stream_loop rest
  | .agentInput _ :: rest => stream_loop rest
  | .agentOutput _ :: rest => stream_loop rest
  | .toolCall _ :: rest => stream_loop rest
  | .toolCallResult _ :: rest => stream_loop rest
  | .stopEvent :: rest => stream_loop rest

end ResearchAssistant

namespace AgentWorkflow

/-! ## Basic facts about the invoker and the result-reordering step -/

/-- A ToolCallResult always carries the id of the request it answers. -/
theorem invoke_requestId (reg : ToolRegistry) (env : ToolEnv)
    (req : ToolCallRequest) : (invoke reg env req).requestId = req.id := by
  unfold invoke
  cases reg.lookup req.toolName with
  | none => rfl
  | some t => cases env req <;> rfl

theorem find?_collectInOrder (results : List ToolCallResult) (order : List Nat)
    (i : Nat) (r : ToolCallResult) (hmem : i ∈ order)
    (hget : results[i]? = some r) :
    (collectInOrder results order).find? (fun p => p.1 == i) = some (i, r) := by
  induction order with
  | nil => cases hmem
  | cons j tl ih =>
    by_cases hij : j = i
    · subst hij
      simp only [collectInOrder, List.filterMap_cons, hget, Option.map_some']
      exact List.find?_cons_of_pos _ (by simp)
    · have htl : i ∈ tl := by
        rcases List.mem_cons.mp hmem with h | h
        · exact absurd h.symm hij
        · exact h
      cases hj : results[j]? with
      | none => simpa only [collectInOrder, List.filterMap_cons, hj] using ih htl
      | some rj =>
        simp only [collectInOrder, List.filterMap_cons, hj, Option.map_some']
        rw [List.find?_cons_of_neg _ (by simp [hij])]
        exact ih htl

theorem filterMap_eq_map_of_some {α β : Type} (f : α → Option β) (g : α → β) :
    ∀ l : List α, (∀ a ∈ l, f a = some (g a)) → l.filterMap f = l.map g
  | [], _ => rfl
  | a :: l, h => by
    rw [List.filterMap_cons, h a (List.mem_cons_self a l), List.map_cons,
      filterMap_eq_map_of_some f g l (fun b hb => h b (List.mem_cons_of_mem a hb))]

theorem map_getD_range {α : Type} (l : List α) (d : α) :
    (List.range l.length).map (fun i => l.getD i d) = l := by
  apply List.ext_getElem
  · simp
  · intro i h1 h2
    simp [List.getD_eq_getElem?_getD, List.getElem?_eq_getElem h2]

/-- If every request index completes exactly once (in whatever order), the
reinserted result list is exactly the results in request-issue order. -/
theorem reorderByIssue_collect (results : List ToolCallResult)
    (order : List Nat) (hperm : order.Perm (List.range results.length)) :
    reorderByIssue results.length (collectInOrder results order) = results := by
  have hmem : ∀ i, i < results.length → i ∈ order := fun i hi =>
    hperm.mem_iff.mpr (List.mem_range.mpr hi)
  unfold reorderByIssue
  rw [filterMap_eq_map_of_some _
    (fun i => results.getD i ⟨"", .ok, .value ""⟩) _ ?_]
  · exact map_getD_range results _
  · intro i hi
    have hi' : i < results.length := List.mem_range.mp hi
    have hget : results[i]? = some results[i] := List.getElem?_eq_getElem hi'
    rw [find?_collectInOrder results order i _ (hmem i hi') hget,
      Option.map_some']
    have hgd : results.getD i ⟨"", .ok, .value ""⟩ = results[i] := by
      rw [List.getD_eq_getElem?_getD, hget]
      rfl
    simp only [hgd]

/-- Under any valid completion schedule, an ExecutingTools phase produces the
results of the step's requests in request-issue order: the completion order
leaves no observable mark. -/
theorem executeStep_eq_map (reg : ToolRegistry) (env : ToolEnv)
    (sched : Schedule) (h : validSchedule sched)
    (reqs : List ToolCallRequest) :
    executeStep reg env sched reqs = reqs.map (invoke reg env) := by
  have hlen : reqs.length = (reqs.map (invoke reg env)).length :=
    (List.length_map _ _).symm
  simp only [executeStep]
  rw [hlen]
  exact reorderByIssue_collect _ _ (by simpa using h reqs)

/-- A result message for every result of the step appears among the step's
appended trace items. -/
theorem mem_resultItems (results : List ToolCallResult) (r : ToolCallResult)
    (hr : r ∈ results) : TraceItem.msg (.toolResult r) ∈ resultItems results := by
  unfold resultItems
  exact List.mem_flatten.mpr
    ⟨[TraceItem.msg (.toolResult r), TraceItem.ev (.toolCallFinished r.requestId)],
      List.mem_map_of_mem _ hr, by simp⟩

/-- If the cancellation signal is set at the start of a Planning transition,
the loop transitions to Cancelled without consulting the planner. -/
theorem runLoop_cancelled (cfg : Config) (reg : ToolRegistry) (env : ToolEnv)
    (cancel : Nat → Bool) (sched : Schedule) (plans : List Action) (iter : Nat)
    (st : RunState) (h : cancel (2 * iter) = true) :
    runLoop cfg reg env cancel sched plans iter st = finishCancelled st := by
  cases plans <;> simp [runLoop, h]

/-- One full Planning → ExecutingTools cycle: with no cancellation at either
phase boundary and the step limit not yet reached, a non-empty `toolCalls`
action executes its requests and the loop continues on the remaining planner
outputs from the advanced state. -/
theorem runLoop_toolStep (cfg : Config) (reg : ToolRegistry) (env : ToolEnv)
    (cancel : Nat → Bool) (sched : Schedule) (q : ToolCallRequest)
    (qs : List ToolCallRequest) (rest : List Action) (iter : Nat)
    (st : RunState) (hc0 : cancel (2 * iter) = false)
    (hc1 : cancel (2 * iter + 1) = false)
    (hlim : st.stepsDone < cfg.step_limit) :
    runLoop cfg reg env cancel sched (Action.toolCalls (q :: qs) :: rest) iter st =
      runLoop cfg reg env cancel sched rest (iter + 1)
        (afterToolStep reg st (q :: qs) (executeStep reg env sched (q :: qs))) := by
  simp [runLoop, hc0, hc1, Nat.not_le.mpr hlim]

/-- The whole loop is insensitive to the completion schedule, as long as the
schedule is valid. -/
theorem runLoop_sched_congr (cfg : Config) (reg : ToolRegistry) (env : ToolEnv)
    (cancel : Nat → Bool) (s1 s2 : Schedule) (h1 : validSchedule s1)
    (h2 : validSchedule s2) :
    ∀ (plans : List Action) (iter : Nat) (st : RunState),
      runLoop cfg reg env cancel s1 plans iter st =
        runLoop cfg reg env cancel s2 plans iter st := by
  intro plans
  induction plans with
  | nil => intro iter st; rfl
  | cons act rest ih =>
    intro iter st
    cases act with
    | finalAnswer text => rfl
    | toolCalls reqs =>
      cases reqs with
      | nil =>
        simp only [runLoop]
        split_ifs <;> first | rfl | exact ih (iter + 1) _
      | cons q qs =>
        simp only [runLoop]
        split_ifs <;> try rfl
        rw [executeStep_eq_map reg env s1 h1, executeStep_eq_map reg env s2 h2]
        exact ih (iter + 1) _

/-! ## Trace bookkeeping lemmas for the bracketing invariant -/

theorem resultItems_cons (r : ToolCallResult) (rs : List ToolCallResult) :
    resultItems (r :: rs) =
      .msg (.toolResult r) :: .ev (.toolCallFinished r.requestId) ::
        resultItems rs := by
  simp [resultItems]

theorem issuedIds_append (A B : List TraceItem) :
    issuedIds (A ++ B) = issuedIds A ++ issuedIds B := by
  simp [issuedIds, List.filterMap_append]

theorem resultIds_append (A B : List TraceItem) :
    resultIds (A ++ B) = resultIds A ++ resultIds B := by
  simp [resultIds, List.filterMap_append]

theorem issuedIds_startedEvents (reqs : List ToolCallRequest) :
    issuedIds (startedEvents reqs) = reqs.map (fun r => r.id) := by
  unfold issuedIds startedEvents
  rw [List.filterMap_map]
  exact filterMap_eq_map_of_some _ _ reqs (fun a _ => rfl)

theorem issuedIds_resultItems (results : List ToolCallResult) :
    issuedIds (resultItems results) = [] := by
  induction results with
  | nil => rfl
  | cons r rs ih => rw [resultItems_cons]; exact ih

theorem resultIds_startedEvents (reqs : List ToolCallRequest) :
    resultIds (startedEvents reqs) = [] := by
  induction reqs with
  | nil => rfl
  | cons q qs ih => exact ih

theorem resultIds_resultItems (results : List ToolCallResult) :
    resultIds (resultItems results) = results.map (fun r => r.requestId) := by
  induction results with
  | nil => rfl
  | cons r rs ih =>
    rw [resultItems_cons, List.map_cons, ← ih]
    rfl

theorem startedEvents_getElem? (reqs : List ToolCallRequest) (m : Nat)
    (h : m < reqs.length) :
    (startedEvents reqs)[m]? = some (.ev (.toolCallStarted reqs[m].id)) := by
  unfold startedEvents
  rw [List.getElem?_map, List.getElem?_eq_getElem h, Option.map_some']

theorem resultItems_getElem? (results : List ToolCallResult) :
    ∀ (m : Nat) (h : m < results.length),
      (resultItems results)[2 * m]? = some (.msg (.toolResult results[m])) ∧
      (resultItems results)[2 * m + 1]? =
        some (.ev (.toolCallFinished results[m].requestId)) := by
  induction results with
  | nil => intro m h; exact absurd h (by simp)
  | cons r rs ih =>
    intro m h
    cases m with
    | zero => simp [resultItems_cons]
    | succ m' =>
      have h' : m' < rs.length := by simpa using h
      have e1 : 2 * (m' + 1) = 2 * m' + 1 + 1 := by ring
      have e2 : 2 * (m' + 1) + 1 = 2 * m' + 1 + 1 + 1 := by ring
      constructor
      · rw [e1, resultItems_cons, List.getElem?_cons_succ,
          List.getElem?_cons_succ]
        simpa using (ih m' h').1
      · rw [e2, resultItems_cons, List.getElem?_cons_succ,
          List.getElem?_cons_succ]
        simpa using (ih m' h').2

theorem lt_length_of_getElem? {α : Type} {l : List α} {n : Nat} {a : α}
    (h : l[n]? = some a) : n < l.length := by
  by_contra hn
  rw [List.getElem?_eq_none (Nat.le_of_not_lt hn)] at h
  cases h

/-- Appending timeline items that dispatch no request and append no
tool-result Message preserves the bracketing invariant. -/
theorem resultBracketed_append_quiet (A B : List TraceItem)
    (hA : ResultBracketed A) (hBi : issuedIds B = [])
    (hBr : resultIds B = []) : ResultBracketed (A ++ B) := by
  intro rid hrid
  rw [issuedIds_append, hBi, List.append_nil] at hrid
  obtain ⟨hcount, i, j, k, hij, hjk, hi, hj, hk⟩ := hA rid hrid
  obtain ⟨r, hjr, hrid'⟩ := hj
  refine ⟨?_, i, j, k, hij, hjk, ?_, ⟨r, ?_, hrid'⟩, ?_⟩
  · rw [resultIds_append, hBr, List.append_nil]
    exact hcount
  · rw [List.getElem?_append_left (lt_length_of_getElem? hi)]
    exact hi
  · rw [List.getElem?_append_left (lt_length_of_getElem? hjr)]
    exact hjr
  · rw [List.getElem?_append_left (lt_length_of_getElem? hk)]
    exact hk

theorem getElem?_left_of_lt {α : Type} (A B C D : List α) (n : Nat)
    (h : n < A.length) : (A ++ B ++ C ++ D)[n]? = A[n]? := by
  have h2 : n < (A ++ B).length := by rw [List.length_append]; omega
  have h3 : n < (A ++ B ++ C).length := by rw [List.length_append]; omega
  rw [List.getElem?_append_left h3, List.getElem?_append_left h2,
    List.getElem?_append_left h]

theorem issuedIds_stepBlock (A : List TraceItem)
    (reqs : List ToolCallRequest) (results : List ToolCallResult) :
    issuedIds (A ++ [TraceItem.msg (.assistantToolCall reqs)] ++
      startedEvents reqs ++ resultItems results) =
      issuedIds A ++ reqs.map (fun r => r.id) := by
  have hq : issuedIds [TraceItem.msg (Message.assistantToolCall reqs)] = [] :=
    rfl
  rw [issuedIds_append, issuedIds_append, issuedIds_append,
    issuedIds_startedEvents, issuedIds_resultItems, hq]
  simp only [List.append_nil]

theorem resultIds_stepBlock (A : List TraceItem)
    (reqs : List ToolCallRequest) (results : List ToolCallResult)
    (hids : results.map (fun r => r.requestId) = reqs.map (fun r => r.id)) :
    resultIds (A ++ [TraceItem.msg (.assistantToolCall reqs)] ++
      startedEvents reqs ++ resultItems results) =
      resultIds A ++ reqs.map (fun r => r.id) := by
  have hq : resultIds [TraceItem.msg (Message.assistantToolCall reqs)] = [] :=
    rfl
  rw [resultIds_append, resultIds_append, resultIds_append,
    resultIds_startedEvents, resultIds_resultItems, hids, hq]
  simp only [List.append_nil]

/-- Appending one step's block (the assistant-tool-call Message, the started
events, and the results with their finished events) for fresh,
duplicate-free request ids preserves the bracketing invariant and
establishes it for the step's own requests. -/
theorem resultBracketed_append_step (A : List TraceItem)
    (reqs : List ToolCallRequest) (results : List ToolCallResult)
    (hA : ResultBracketed A)
    (hids : results.map (fun r => r.requestId) = reqs.map (fun r => r.id))
    (hnd : (reqs.map (fun r => r.id)).Nodup)
    (hfresh : ∀ rid ∈ reqs.map (fun r => r.id),
      rid ∉ issuedIds A ∧ rid ∉ resultIds A) :
    ResultBracketed
      (A ++ [TraceItem.msg (.assistantToolCall reqs)] ++ startedEvents reqs ++
        resultItems results) := by
  have hIB := issuedIds_stepBlock A reqs results
  have hRB := resultIds_stepBlock A reqs results hids
  have hlenS : (startedEvents reqs).length = reqs.length := by
    simp [startedEvents]
  have hL2 : (A ++ [TraceItem.msg (.assistantToolCall reqs)]).length =
      A.length + 1 := by simp
  have hL1 : (A ++ [TraceItem.msg (.assistantToolCall reqs)] ++
      startedEvents reqs).length = A.length + 1 + reqs.length := by
    rw [List.length_append, hL2, hlenS]
  intro rid hrid
  rw [hIB] at hrid
  rcases List.mem_append.mp hrid with hInA | hInB
  · obtain ⟨hcount, i, j, k, hij, hjk, hi, hj, hk⟩ := hA rid hInA
    obtain ⟨r, hjr, hr⟩ := hj
    have hnotB : rid ∉ reqs.map (fun r => r.id) := fun hmem =>
      (hfresh rid hmem).1 hInA
    refine ⟨?_, i, j, k, hij, hjk, ?_, ⟨r, ?_, hr⟩, ?_⟩
    · rw [hRB, List.count_append, hcount,
        List.count_eq_zero_of_not_mem hnotB]
    · rw [getElem?_left_of_lt _ _ _ _ _ (lt_length_of_getElem? hi)]
      exact hi
    · rw [getElem?_left_of_lt _ _ _ _ _ (lt_length_of_getElem? hjr)]
      exact hjr
    · rw [getElem?_left_of_lt _ _ _ _ _ (lt_length_of_getElem? hk)]
      exact hk
  · obtain ⟨m, hm, hm_eq⟩ := List.mem_iff_getElem.mp hInB
    have hmr : m < reqs.length := by simpa using hm
    rw [List.getElem_map] at hm_eq
    have hlen : results.length = reqs.length := by
      have := congrArg List.length hids
      simpa using this
    have hm_res : m < results.length := by omega
    have hidm : results[m].requestId = rid := by
      have h1 := congrArg (fun l => l[m]?) hids
      simp only [List.getElem?_map] at h1
      rw [List.getElem?_eq_getElem hm_res, List.getElem?_eq_getElem hmr] at h1
      simp only [Option.map_some'] at h1
      rw [Option.some.inj h1, hm_eq]
    have hcA : rid ∉ resultIds A := (hfresh rid hInB).2
    refine ⟨?_, A.length + 1 + m, A.length + 1 + reqs.length + 2 * m,
      A.length + 1 + reqs.length + 2 * m + 1, by omega, by omega, ?_,
      ⟨results[m], ?_, hidm⟩, ?_⟩
    · rw [hRB, List.count_append, List.count_eq_zero_of_not_mem hcA,
        List.count_eq_one_of_mem hnd hInB]
    · rw [List.getElem?_append_left (by rw [hL1]; omega),
        List.getElem?_append_right (by rw [hL2]; omega), hL2]
      have he : A.length + 1 + m - (A.length + 1) = m := by omega
      rw [he, startedEvents_getElem? reqs m hmr, hm_eq]
    · rw [List.getElem?_append_right (by rw [hL1]; omega), hL1]
      have he : A.length + 1 + reqs.length + 2 * m -
          (A.length + 1 + reqs.length) = 2 * m := by omega
      rw [he]
      exact (resultItems_getElem? results m hm_res).1
    · rw [List.getElem?_append_right (by rw [hL1]; omega), hL1]
      have he : A.length + 1 + reqs.length + 2 * m + 1 -
          (A.length + 1 + reqs.length) = 2 * m + 1 := by omega
      rw [he, (resultItems_getElem? results m hm_res).2, hidm]

theorem allRequestIds_cons (a : Action) (rest : List Action) :
    allRequestIds (a :: rest) = actionIds a ++ allRequestIds rest := rfl

/-- The bracketing invariant is preserved by every continuation of the loop,
as long as the still-unconsumed planner outputs use only fresh,
duplicate-free request ids. -/
theorem runLoop_resultBracketed (cfg : Config) (reg : ToolRegistry)
    (env : ToolEnv) (cancel : Nat → Bool) (sched : Schedule)
    (hv : validSchedule sched) :
    ∀ (plans : List Action) (iter : Nat) (st : RunState),
      ResultBracketed st.trace →
      (∀ rid ∈ allRequestIds plans,
        rid ∉ issuedIds st.trace ∧ rid ∉ resultIds st.trace) →
      (allRequestIds plans).Nodup →
      ResultBracketed (runLoop cfg reg env cancel sched plans iter st).trace := by
  intro plans
  induction plans with
  | nil =>
    intro iter st hst hfresh hnd
    simp only [runLoop]
    split_ifs
    · exact resultBracketed_append_quiet st.trace [.ev .runFailed] hst rfl rfl
    · exact resultBracketed_append_quiet st.trace [.ev .runFailed] hst rfl rfl
    · exact resultBracketed_append_quiet st.trace [.ev .runFailed] hst rfl rfl
  | cons act rest ih =>
    intro iter st hst hfresh hnd
    cases act with
    | finalAnswer text =>
      simp only [runLoop]
      split_ifs
      · exact resultBracketed_append_quiet st.trace [.ev .runFailed] hst rfl rfl
      · exact resultBracketed_append_quiet st.trace [.ev .runFailed] hst rfl rfl
      · exact resultBracketed_append_quiet
          (st.trace ++ [.ev (.textDelta text)])
          [.msg (.assistantText text), .ev .runCompleted]
          (resultBracketed_append_quiet st.trace [.ev (.textDelta text)] hst
            rfl rfl) rfl rfl
    | toolCalls reqs =>
      cases reqs with
      | nil =>
        simp only [runLoop]
        split_ifs
        · exact resultBracketed_append_quiet st.trace [.ev .runFailed] hst rfl
            rfl
        · exact resultBracketed_append_quiet st.trace [.ev .runFailed] hst rfl
            rfl
        · exact resultBracketed_append_quiet st.trace [.ev .runFailed] hst rfl
            rfl
        · exact ih (iter + 1) (afterEmptyStep st) hst hfresh hnd
      | cons q qs =>
        simp only [runLoop]
        split_ifs
        · exact resultBracketed_append_quiet st.trace [.ev .runFailed] hst rfl
            rfl
        · exact resultBracketed_append_quiet st.trace [.ev .runFailed] hst rfl
            rfl
        · exact resultBracketed_append_quiet
            (st.trace ++ [.msg (.assistantToolCall (q :: qs))])
            [.ev .runFailed]
            (resultBracketed_append_quiet st.trace
              [.msg (.assistantToolCall (q :: qs))] hst rfl rfl) rfl rfl
        · rw [allRequestIds_cons] at hfresh hnd
          have hact : actionIds (Action.toolCalls (q :: qs)) =
              (q :: qs).map (fun r => r.id) := rfl
          rw [hact] at hfresh hnd
          obtain ⟨hnd1, hnd2, hdisj⟩ := List.nodup_append.mp hnd
          have hids : (executeStep reg env sched (q :: qs)).map
              (fun r => r.requestId) = (q :: qs).map (fun r => r.id) := by
            rw [executeStep_eq_map reg env sched hv, List.map_map]
            simp only [Function.comp_def, invoke_requestId]
          have hst' : ResultBracketed
              (afterToolStep reg st (q :: qs)
                (executeStep reg env sched (q :: qs))).trace :=
            resultBracketed_append_step st.trace (q :: qs) _ hst hids hnd1
              (fun rid hr => hfresh rid (List.mem_append_left _ hr))
          refine ih (iter + 1) _ hst' ?_ hnd2
          intro rid hr
          have h1 := hfresh rid (List.mem_append_right _ hr)
          have h2 : rid ∉ (q :: qs).map (fun r => r.id) := fun hmem =>
            hdisj hmem hr
          show rid ∉ issuedIds (st.trace ++
              [TraceItem.msg (.assistantToolCall (q :: qs))] ++
              startedEvents (q :: qs) ++
              resultItems (executeStep reg env sched (q :: qs))) ∧
            rid ∉ resultIds (st.trace ++
              [TraceItem.msg (.assistantToolCall (q :: qs))] ++
              startedEvents (q :: qs) ++
              resultItems (executeStep reg env sched (q :: qs)))
          constructor
          · rw [issuedIds_stepBlock]
            intro hc
            rcases List.mem_append.mp hc with hc | hc
            · exact h1.1 hc
            · exact h2 hc
          · rw [resultIds_stepBlock _ _ _ hids]
            intro hc
            rcases List.mem_append.mp hc with hc | hc
            · exact h1.2 hc
            · exact h2 hc

/-- Whenever a loop continuation terminates with status Completed, the final
assistant text is the last Message of the conversation and the run-completed
event is the very last item of the run's timeline. -/
theorem runLoop_completed_shape (cfg : Config) (reg : ToolRegistry)
    (env : ToolEnv) (cancel : Nat → Bool) (sched : Schedule) :
    ∀ (plans : List Action) (iter : Nat) (st : RunState),
      (runLoop cfg reg env cancel sched plans iter st).status = .completed →
      (∃ t,
        (messagesOf
          (runLoop cfg reg env cancel sched plans iter st).trace).getLast? =
          some (.assistantText t)) ∧
      ((runLoop cfg reg env cancel sched plans iter st).trace).getLast? =
        some (.ev .runCompleted) := by
  intro plans
  induction plans with
  | nil =>
    intro iter st h
    simp only [runLoop] at h
    split_ifs at h
    · exact absurd h (by simp [finishCancelled])
    · exact absurd h (by simp [finishStepLimit])
    · exact absurd h (by simp [finishFailed])
  | cons act rest ih =>
    intro iter st h
    cases act with
    | finalAnswer text =>
      simp only [runLoop] at h ⊢
      split_ifs at h ⊢
      · exact absurd h (by simp [finishCancelled])
      · exact absurd h (by simp [finishStepLimit])
      · refine ⟨⟨text, ?_⟩, ?_⟩
        · simp [finishCompleted, messagesOf, List.filterMap_append]
        · simp [finishCompleted]
    | toolCalls reqs =>
      cases reqs with
      | nil =>
        simp only [runLoop] at h ⊢
        split_ifs at h ⊢
        · exact absurd h (by simp [finishCancelled])
        · exact absurd h (by simp [finishStepLimit])
        · exact absurd h (by simp [finishFailed])
        · exact ih (iter + 1) _ h
      | cons q qs =>
        simp only [runLoop] at h ⊢
        split_ifs at h ⊢
        · exact absurd h (by simp [finishCancelled])
        · exact absurd h (by simp [finishStepLimit])
        · exact absurd h (by simp [finishCancelled])
        · exact ih (iter + 1) _ h

theorem validSchedule_schedIssue : validSchedule schedIssue :=
  fun _ => List.Perm.refl _

theorem validSchedule_schedRev : validSchedule schedRev :=
  fun _ => List.reverse_perm _

/-! ## The claims -/

/-- C1: a run replayed against the same fixed planner outputs and tool
results yields an identical ConversationState ordering (indeed an identical
run state), independently of the order in which the concurrently invoked tool
calls of each step complete; the results of a step are appended in
request-issue order. -/
theorem c1_replay_deterministic (cfg : Config) (reg : ToolRegistry)
    (env : ToolEnv) (cancel : Nat → Bool) (s1 s2 : Schedule)
    (h1 : validSchedule s1) (h2 : validSchedule s2) (plans : List Action)
    (goal : String) :
    (run cfg reg env cancel s1 plans goal).conv =
        (run cfg reg env cancel s2 plans goal).conv ∧
      run cfg reg env cancel s1 plans goal =
        run cfg reg env cancel s2 plans goal ∧
      ∀ reqs, executeStep reg env s1 reqs = reqs.map (invoke reg env) := by
  have h := runLoop_sched_congr cfg reg env cancel s1 s2 h1 h2 plans 0
    (initState goal)
  exact ⟨by unfold run; rw [h], by unfold run; exact h,
    executeStep_eq_map reg env s1 h1⟩

theorem c1_replay_deterministic_witness :
    (run ⟨5⟩ sampleReg sampleEnv noCancel schedRev samplePlans "goal").conv =
        (run ⟨5⟩ sampleReg sampleEnv noCancel schedIssue samplePlans "goal").conv ∧
      run ⟨5⟩ sampleReg sampleEnv noCancel schedRev samplePlans "goal" =
        run ⟨5⟩ sampleReg sampleEnv noCancel schedIssue samplePlans "goal" ∧
      ∀ reqs, executeStep sampleReg sampleEnv schedRev reqs =
        reqs.map (invoke sampleReg sampleEnv) :=
  c1_replay_deterministic ⟨5⟩ sampleReg sampleEnv noCancel schedRev schedIssue
    validSchedule_schedRev validSchedule_schedIssue samplePlans "goal"

/-- C6: a run configured with `step_limit = 0` (and not already cancelled
before its first transition) terminates immediately with terminal status
StepLimitExceeded: no tool handler is invoked, the planner is never consulted,
the conversation still holds only the seeded goal, and StepLimitExceeded is
distinct from Failed. -/
theorem c6_step_limit_zero (cfg : Config) (reg : ToolRegistry) (env : ToolEnv)
    (cancel : Nat → Bool) (sched : Schedule) (plans : List Action)
    (goal : String) (hcfg : cfg.step_limit = 0) (hc : cancel 0 = false) :
    (run cfg reg env cancel sched plans goal).status = .stepLimitExceeded ∧
      (run cfg reg env cancel sched plans goal).handlerCalls = 0 ∧
      (run cfg reg env cancel sched plans goal).plannerCalls = 0 ∧
      (run cfg reg env cancel sched plans goal).conv = [.user goal] ∧
      Status.stepLimitExceeded ≠ Status.failed := by
  have hrun : run cfg reg env cancel sched plans goal =
      finishStepLimit (initState goal) := by
    unfold run
    cases plans <;> simp [runLoop, hc, hcfg]
  refine ⟨?_, ?_, ?_, ?_, by simp⟩ <;>
    simp [hrun, finishStepLimit, initState, RunState.conv, messagesOf]

/-- C3: a request naming a tool absent from the registry is answered by an
error-status ToolCallResult carrying an UnknownToolError payload; that result
is appended to the run's trace, the run is not terminated by it (the state
stays `running`), and the loop proceeds to the next Planning step on the
remaining planner outputs. -/
theorem c3_unknown_tool_downgraded (cfg : Config) (reg : ToolRegistry)
    (env : ToolEnv) (cancel : Nat → Bool) (sched : Schedule)
    (q : ToolCallRequest) (qs : List ToolCallRequest) (rest : List Action)
    (iter : Nat) (st : RunState) (req : ToolCallRequest)
    (hreq : req ∈ q :: qs) (hunk : reg.lookup req.toolName = none)
    (hc0 : cancel (2 * iter) = false) (hc1 : cancel (2 * iter + 1) = false)
    (hlim : st.stepsDone < cfg.step_limit) (hv : validSchedule sched)
    (hst : st.status = .running) :
    invoke reg env req = ⟨req.id, .error, .unknownToolError req.toolName⟩ ∧
      TraceItem.msg (.toolResult ⟨req.id, .error, .unknownToolError req.toolName⟩) ∈
        (afterToolStep reg st (q :: qs)
          (executeStep reg env sched (q :: qs))).trace ∧
      (afterToolStep reg st (q :: qs)
        (executeStep reg env sched (q :: qs))).status = .running ∧
      runLoop cfg reg env cancel sched (Action.toolCalls (q :: qs) :: rest)
          iter st =
        runLoop cfg reg env cancel sched rest (iter + 1)
          (afterToolStep reg st (q :: qs)
            (executeStep reg env sched (q :: qs))) := by
  have hinv : invoke reg env req =
      ⟨req.id, .error, .unknownToolError req.toolName⟩ := by
    unfold invoke
    rw [hunk]
  have hmem : invoke reg env req ∈ executeStep reg env sched (q :: qs) := by
    rw [executeStep_eq_map reg env sched hv]
    exact List.mem_map_of_mem _ hreq
  refine ⟨hinv, ?_, by simpa [afterToolStep] using hst,
    runLoop_toolStep cfg reg env cancel sched q qs rest iter st hc0 hc1 hlim⟩
  rw [← hinv]
  simp only [afterToolStep, List.mem_append]
  exact Or.inr (mem_resultItems _ _ hmem)

theorem c3_unknown_tool_downgraded_witness :
    invoke sampleReg sampleEnv ⟨"rx", "duckduckgo_fetch", "q"⟩ =
        ⟨"rx", .error, .unknownToolError "duckduckgo_fetch"⟩ ∧
      TraceItem.msg (.toolResult ⟨"rx", .error, .unknownToolError "duckduckgo_fetch"⟩) ∈
        (afterToolStep sampleReg (initState "goal") [⟨"rx", "duckduckgo_fetch", "q"⟩]
          (executeStep sampleReg sampleEnv schedIssue
            [⟨"rx", "duckduckgo_fetch", "q"⟩])).trace ∧
      (afterToolStep sampleReg (initState "goal") [⟨"rx", "duckduckgo_fetch", "q"⟩]
        (executeStep sampleReg sampleEnv schedIssue
          [⟨"rx", "duckduckgo_fetch", "q"⟩])).status = .running ∧
      runLoop ⟨5⟩ sampleReg sampleEnv noCancel schedIssue
          (Action.toolCalls [⟨"rx", "duckduckgo_fetch", "q"⟩] ::
            [Action.finalAnswer "done"]) 0 (initState "goal") =
        runLoop ⟨5⟩ sampleReg sampleEnv noCancel schedIssue
          [Action.finalAnswer "done"] (0 + 1)
          (afterToolStep sampleReg (initState "goal")
            [⟨"rx", "duckduckgo_fetch", "q"⟩]
            (executeStep sampleReg sampleEnv schedIssue
              [⟨"rx", "duckduckgo_fetch", "q"⟩])) :=
  c3_unknown_tool_downgraded ⟨5⟩ sampleReg sampleEnv noCancel schedIssue
    ⟨"rx", "duckduckgo_fetch", "q"⟩ [] [Action.finalAnswer "done"] 0
    (initState "goal") ⟨"rx", "duckduckgo_fetch", "q"⟩ (by simp) (by decide)
    rfl rfl (by decide) validSchedule_schedIssue rfl

/-- C4: a tool call whose handler exceeds the per-call timeout is answered by
an error-status ToolCallResult with a TimeoutError payload (no exception is
propagated: the invoker is total); the result is appended to the run's trace,
the state is not moved to Failed, and the loop continues to its next Planning
step. -/
theorem c4_timeout_downgraded (cfg : Config) (reg : ToolRegistry)
    (env : ToolEnv) (cancel : Nat → Bool) (sched : Schedule)
    (q : ToolCallRequest) (qs : List ToolCallRequest) (rest : List Action)
    (iter : Nat) (st : RunState) (req : ToolCallRequest) (t : Tool)
    (hreq : req ∈ q :: qs) (hfound : reg.lookup req.toolName = some t)
    (htime : env req = .timeout)
    (hc0 : cancel (2 * iter) = false) (hc1 : cancel (2 * iter + 1) = false)
    (hlim : st.stepsDone < cfg.step_limit) (hv : validSchedule sched)
    (hst : st.status = .running) :
    invoke reg env req = ⟨req.id, .error, .timeoutError⟩ ∧
      TraceItem.msg (.toolResult ⟨req.id, .error, .timeoutError⟩) ∈
        (afterToolStep reg st (q :: qs)
          (executeStep reg env sched (q :: qs))).trace ∧
      (afterToolStep reg st (q :: qs)
        (executeStep reg env sched (q :: qs))).status = .running ∧
      (afterToolStep reg st (q :: qs)
        (executeStep reg env sched (q :: qs))).status ≠ .failed ∧
      runLoop cfg reg env cancel sched (Action.toolCalls (q :: qs) :: rest)
          iter st =
        runLoop cfg reg env cancel sched rest (iter + 1)
          (afterToolStep reg st (q :: qs)
            (executeStep reg env sched (q :: qs))) := by
  have hinv : invoke reg env req = ⟨req.id, .error, .timeoutError⟩ := by
    unfold invoke
    rw [hfound, htime]
  have hmem : invoke reg env req ∈ executeStep reg env sched (q :: qs) := by
    rw [executeStep_eq_map reg env sched hv]
    exact List.mem_map_of_mem _ hreq
  have hstat : (afterToolStep reg st (q :: qs)
      (executeStep reg env sched (q :: qs))).status = .running := by
    simpa [afterToolStep] using hst
  refine ⟨hinv, ?_, hstat, by rw [hstat]; simp,
    runLoop_toolStep cfg reg env cancel sched q qs rest iter st hc0 hc1 hlim⟩
  rw [← hinv]
  simp only [afterToolStep, List.mem_append]
  exact Or.inr (mem_resultItems _ _ hmem)

theorem c4_timeout_downgraded_witness :
    invoke sampleReg timeoutEnv ⟨"r1", "search", "q1"⟩ =
        ⟨"r1", .error, .timeoutError⟩ ∧
      TraceItem.msg (.toolResult ⟨"r1", .error, .timeoutError⟩) ∈
        (afterToolStep sampleReg (initState "goal") [⟨"r1", "search", "q1"⟩]
          (executeStep sampleReg timeoutEnv schedIssue
            [⟨"r1", "search", "q1"⟩])).trace ∧
      (afterToolStep sampleReg (initState "goal") [⟨"r1", "search", "q1"⟩]
        (executeStep sampleReg timeoutEnv schedIssue
          [⟨"r1", "search", "q1"⟩])).status = .running ∧
      (afterToolStep sampleReg (initState "goal") [⟨"r1", "search", "q1"⟩]
        (executeStep sampleReg timeoutEnv schedIssue
          [⟨"r1", "search", "q1"⟩])).status ≠ .failed ∧
      runLoop ⟨5⟩ sampleReg timeoutEnv noCancel schedIssue
          (Action.toolCalls [⟨"r1", "search", "q1"⟩] ::
            [Action.finalAnswer "done"]) 0 (initState "goal") =
        runLoop ⟨5⟩ sampleReg timeoutEnv noCancel schedIssue
          [Action.finalAnswer "done"] (0 + 1)
          (afterToolStep sampleReg (initState "goal") [⟨"r1", "search", "q1"⟩]
            (executeStep sampleReg timeoutEnv schedIssue
              [⟨"r1", "search", "q1"⟩])) :=
  c4_timeout_downgraded ⟨5⟩ sampleReg timeoutEnv noCancel schedIssue
    ⟨"r1", "search", "q1"⟩ [] [Action.finalAnswer "done"] 0 (initState "goal")
    ⟨"r1", "search", "q1"⟩ ⟨"search", "web search"⟩ (by simp) (by decide) rfl
    rfl rfl (by decide) validSchedule_schedIssue rfl

/-- C7: if cancellation is signalled after a step's tool calls are dispatched
but before the next Planning transition, every tool call of the step still
completes and its result is recorded in the trace, the planner is not
consulted again (the planner-invocation counter stays at the one call that
issued the step), and the terminal status is Cancelled, which is distinct from
Failed. -/
theorem c7_cancel_during_flight (cfg : Config) (reg : ToolRegistry)
    (env : ToolEnv) (cancel : Nat → Bool) (sched : Schedule)
    (q : ToolCallRequest) (qs : List ToolCallRequest) (rest : List Action)
    (iter : Nat) (st : RunState) (hc0 : cancel (2 * iter) = false)
    (hc1 : cancel (2 * iter + 1) = false)
    (hc2 : cancel (2 * (iter + 1)) = true)
    (hlim : st.stepsDone < cfg.step_limit) (hv : validSchedule sched) :
    (runLoop cfg reg env cancel sched (Action.toolCalls (q :: qs) :: rest)
        iter st).status = .cancelled ∧
      (∀ req ∈ q :: qs,
        TraceItem.msg (.toolResult (invoke reg env req)) ∈
          (runLoop cfg reg env cancel sched
            (Action.toolCalls (q :: qs) :: rest) iter st).trace) ∧
      (runLoop cfg reg env cancel sched (Action.toolCalls (q :: qs) :: rest)
        iter st).plannerCalls = st.plannerCalls + 1 ∧
      Status.cancelled ≠ Status.failed := by
  have hstep := runLoop_toolStep cfg reg env cancel sched q qs rest iter st
    hc0 hc1 hlim
  have hcan := runLoop_cancelled cfg reg env cancel sched rest (iter + 1)
    (afterToolStep reg st (q :: qs) (executeStep reg env sched (q :: qs))) hc2
  rw [hstep, hcan]
  refine ⟨rfl, ?_, by simp [finishCancelled, afterToolStep], by simp⟩
  intro req hreq
  have hmem : invoke reg env req ∈ executeStep reg env sched (q :: qs) := by
    rw [executeStep_eq_map reg env sched hv]
    exact List.mem_map_of_mem _ hreq
  simp only [finishCancelled, afterToolStep, List.mem_append]
  exact Or.inl (Or.inr (mem_resultItems _ _ hmem))

theorem c7_cancel_during_flight_witness :
    (runLoop ⟨5⟩ sampleReg sampleEnv cancelFromPhase2 schedIssue
        (Action.toolCalls [⟨"r1", "search", "q1"⟩, ⟨"r2", "search", "q2"⟩] ::
          [Action.finalAnswer "done"]) 0 (initState "goal")).status =
        .cancelled ∧
      (∀ req ∈ [⟨"r1", "search", "q1"⟩, (⟨"r2", "search", "q2"⟩ : ToolCallRequest)],
        TraceItem.msg (.toolResult (invoke sampleReg sampleEnv req)) ∈
          (runLoop ⟨5⟩ sampleReg sampleEnv cancelFromPhase2 schedIssue
            (Action.toolCalls [⟨"r1", "search", "q1"⟩, ⟨"r2", "search", "q2"⟩] ::
              [Action.finalAnswer "done"]) 0 (initState "goal")).trace) ∧
      (runLoop ⟨5⟩ sampleReg sampleEnv cancelFromPhase2 schedIssue
        (Action.toolCalls [⟨"r1", "search", "q1"⟩, ⟨"r2", "search", "q2"⟩] ::
          [Action.finalAnswer "done"]) 0 (initState "goal")).plannerCalls =
        (initState "goal").plannerCalls + 1 ∧
      Status.cancelled ≠ Status.failed :=
  c7_cancel_during_flight ⟨5⟩ sampleReg sampleEnv cancelFromPhase2 schedIssue
    ⟨"r1", "search", "q1"⟩ [⟨"r2", "search", "q2"⟩] [Action.finalAnswer "done"]
    0 (initState "goal") rfl rfl rfl (by decide) validSchedule_schedIssue

/-- C8: within one ExecutingTools phase the concurrent tool calls share no
state: whatever the completion interleaving, the phase's outcome is the
pointwise image of a pure per-request function, so each call's result is fully
determined by its own request and uninfluenced by the other calls of the
step.  (Planning and ExecutingTools phases are sequentially composed by
`runLoop` itself and cannot overlap in the model.) -/
theorem c8_no_shared_state (reg : ToolRegistry) (env : ToolEnv)
    (sched : Schedule) (hv : validSchedule sched) :
    (∀ reqs, executeStep reg env sched reqs = reqs.map (invoke reg env)) ∧
      ∀ (reqs : List ToolCallRequest) (i : Nat) (req : ToolCallRequest),
        reqs[i]? = some req →
        (executeStep reg env sched reqs)[i]? = some (invoke reg env req) := by
  refine ⟨executeStep_eq_map reg env sched hv, ?_⟩
  intro reqs i req h
  rw [executeStep_eq_map reg env sched hv, List.getElem?_map, h,
    Option.map_some']

theorem c8_no_shared_state_witness :
    (∀ reqs, executeStep sampleReg sampleEnv schedRev reqs =
        reqs.map (invoke sampleReg sampleEnv)) ∧
      ∀ (reqs : List ToolCallRequest) (i : Nat) (req : ToolCallRequest),
        reqs[i]? = some req →
        (executeStep sampleReg sampleEnv schedRev reqs)[i]? =
          some (invoke sampleReg sampleEnv req) :=
  c8_no_shared_state sampleReg sampleEnv schedRev validSchedule_schedRev

theorem c6_step_limit_zero_witness :
    (run ⟨0⟩ sampleReg sampleEnv noCancel schedIssue samplePlans "goal").status =
        .stepLimitExceeded ∧
      (run ⟨0⟩ sampleReg sampleEnv noCancel schedIssue samplePlans
        "goal").handlerCalls = 0 ∧
      (run ⟨0⟩ sampleReg sampleEnv noCancel schedIssue samplePlans
        "goal").plannerCalls = 0 ∧
      (run ⟨0⟩ sampleReg sampleEnv noCancel schedIssue samplePlans "goal").conv =
        [.user "goal"] ∧
      Status.stepLimitExceeded ≠ Status.failed :=
  c6_step_limit_zero ⟨0⟩ sampleReg sampleEnv noCancel schedIssue samplePlans
    "goal" rfl rfl

/-- C2: in every run whose planner script uses unique request ids (the
spec's data-model requirement), every ToolCallRequest dispatched in the run
has exactly one ToolCallResult with its id, appended to the run's timeline no
earlier than the corresponding tool-call-started Event and no later than the
matching tool-call-finished Event. -/
theorem c2_result_bracketing (cfg : Config) (reg : ToolRegistry)
    (env : ToolEnv) (cancel : Nat → Bool) (sched : Schedule)
    (plans : List Action) (goal : String) (hv : validSchedule sched)
    (hnd : (allRequestIds plans).Nodup) :
    ResultBracketed (run cfg reg env cancel sched plans goal).trace := by
  apply runLoop_resultBracketed cfg reg env cancel sched hv plans 0
    (initState goal) ?_ ?_ hnd
  · intro rid hrid
    cases hrid
  · intro rid _
    constructor
    · intro h
      cases h
    · intro h
      cases h

theorem c2_result_bracketing_witness :
    ResultBracketed
      (run ⟨5⟩ sampleReg sampleEnv noCancel schedIssue samplePlans
        "goal").trace :=
  c2_result_bracketing ⟨5⟩ sampleReg sampleEnv noCancel schedIssue samplePlans
    "goal" validSchedule_schedIssue (by decide)

/-- C5: in every run that terminates via a FinalAnswer action (terminal
status Completed), the last Message of the ConversationState is an
assistant-text Message and the run-completed event is the last item of the
run's timeline, so no Event is emitted after it. -/
theorem c5_final_answer_shape (cfg : Config) (reg : ToolRegistry)
    (env : ToolEnv) (cancel : Nat → Bool) (sched : Schedule)
    (plans : List Action) (goal : String)
    (h : (run cfg reg env cancel sched plans goal).status = .completed) :
    (∃ t, ((run cfg reg env cancel sched plans goal).conv).getLast? =
        some (.assistantText t)) ∧
      ((run cfg reg env cancel sched plans goal).trace).getLast? =
        some (.ev .runCompleted) :=
  runLoop_completed_shape cfg reg env cancel sched plans 0 (initState goal) h

theorem c5_final_answer_shape_witness :
    (∃ t, ((run ⟨5⟩ sampleReg sampleEnv noCancel schedIssue samplePlans
        "goal").conv).getLast? = some (.assistantText t)) ∧
      ((run ⟨5⟩ sampleReg sampleEnv noCancel schedIssue samplePlans
        "goal").trace).getLast? = some (.ev .runCompleted) :=
  c5_final_answer_shape ⟨5⟩ sampleReg sampleEnv noCancel schedIssue samplePlans
    "goal" (by decide)


end AgentWorkflow

namespace ResearchAssistant

theorem stream_loop_append : ∀ xs ys : List WorkflowEvent,
    stream_loop (xs ++ ys) = stream_loop xs ++ stream_loop ys
  | [], _ => rfl
  | e :: xs, ys => by
    cases e <;> simp [stream_loop, stream_loop_append xs ys]

/-- C9: membership in the tool list handed to
`AgentWorkflow.from_tools_or_functions` is exactly: a Playwright tool named
"click", "get_current_page" or "navigate_to", or any AgentQL browser tool, or
a DuckDuckGo tool named "duckduckgo_full_search"; every other Playwright or
DuckDuckGo tool is excluded. -/
theorem c9_registry_restriction (pw aq dd : List FunctionTool)
    (t : FunctionTool) :
    t ∈ workflow_tools pw aq dd ↔
      (t ∈ pw ∧
        t.metadata.name ∈
          (["click", "get_current_page", "navigate_to"] : List String)) ∨
      t ∈ aq ∨ (t ∈ dd ∧ t.metadata.name = "duckduckgo_full_search") := by
  simp [workflow_tools, playwright_agent_tool_list, duckduckgo_search_tool,
    List.mem_append, List.mem_filter]

/-- C10: the notebook's event loop prints exactly the deltas of the
`AgentStream` events of the stream: deleting any non-`AgentStream` event from
the stream leaves the printed output unchanged, while each `AgentStream`
event contributes exactly its delta at its position. -/
theorem c10_only_agent_stream_printed :
    (∀ (xs ys : List WorkflowEvent) (e : WorkflowEvent),
        (∀ d, e ≠ .agentStream d) →
        stream_loop (xs ++ e :: ys) = stream_loop (xs ++ ys)) ∧
      ∀ (xs ys : List WorkflowEvent) (d : String),
        stream_loop (xs ++ .agentStream d :: ys) =
          stream_loop xs ++ d :: stream_loop ys := by
  constructor
  · intro xs ys e h
    rw [stream_loop_append, stream_loop_append]
    cases e with
    | agentStream d => exact absurd rfl (h d)
    | agentInput x => rfl
    | agentOutput x => rfl
    | toolCall x => rfl
    | toolCallResult x => rfl
    | stopEvent => rfl
  · intro xs ys d
    rw [stream_loop_append]
    rfl

theorem c10_only_agent_stream_printed_witness :
    stream_loop ([.toolCall "navigate_to"] ++
        WorkflowEvent.stopEvent :: [.agentStream "I found it"]) =
      stream_loop ([.toolCall "navigate_to"] ++ [.agentStream "I found it"]) ∧
    stream_loop ([.toolCall "navigate_to"] ++
        WorkflowEvent.agentStream "I found it" :: []) =
      stream_loop [.toolCall "navigate_to"] ++ "I found it" :: stream_loop [] :=
  ⟨c10_only_agent_stream_printed.1 [.toolCall "navigate_to"]
      [.agentStream "I found it"] .stopEvent (fun _ h => WorkflowEvent.noConfusion h),
    c10_only_agent_stream_printed.2 [.toolCall "navigate_to"] [] "I found it"⟩

end ResearchAssistant
